import Mathlib

/-!
Verification of the tmpl code-generation tool (go/arrow/_tools/tmpl/main.go).

The development shallowly embeds the two pieces of real logic of the tool:

* the comment stripper StripComments, a single forward byte scan with three
  boolean flags (quoted, esc, comment) that removes line and block comments
  and falls back to the raw input when the scan ends in an unexpected state;
* the path-spec resolver parsePath, the repeatable NAME=VALUE flag parser
  listValue.Set, and the per-spec generation pipeline process, the latter
  parameterised over its external collaborators (file reads, template parse
  and execute, formatter, stat and write) so that the control flow of the Go
  code is the object of study.

Bytes are modelled as natural numbers (the numeric value of the byte);
strings are modelled through their character lists.
-/

/-- Result of the StripComments scan loop: the bytes emitted by the rest of
the scan together with the final values of the three flags. -/
structure ScanOut where
  out : List Nat
  quoted : Bool
  esc : Bool
  comment : Bool
deriving Repr, DecidableEq

/-- Models Go bytes.IndexByte: index of the first occurrence of t in l. -/
def indexByte (l : List Nat) (t : Nat) : Option Nat :=
  match l with
  | [] => none
  | b :: rest => if b = t then some 0 else (indexByte rest t).map (· + 1)

/-- Models Go bytes.Index(l, []byte("*\x2f")): index of the first occurrence
of the two-byte pattern star-slash (42, 47) in l. -/
def indexStarSlash : List Nat → Option Nat
  | [] => none
  | [_] => none
  | a :: b :: rest =>
    if a = 42 ∧ b = 47 then some 0
    else (indexStarSlash (b :: rest)).map (· + 1)

/-- The scan loop of StripComments (main.go lines 215-260), one constructor
case per loop iteration.  The first argument is fuel; the callers always pass
the length of the list, and every iteration consumes at least the head byte,
so the fuel never runs out on those calls.  Byte values: 10 newline,
34 double quote, 39 single quote, 42 star, 47 slash, 92 backslash.
The comment branch mirrors the Go switch: on slash the comment flag is
cleared and the scan jumps to the next newline (kept, or end of input when
there is none); on star the scan jumps past the next star-slash pair,
leaving the comment flag set when there is none; any other byte is dropped
with the comment flag still set. -/
def stripLoopF : Nat → List Nat → Bool → Bool → Bool → ScanOut
  | _, [], quoted, esc, comment => ⟨[], quoted, esc, comment⟩
  | 0, _ :: _, quoted, esc, comment => ⟨[], quoted, esc, comment⟩
  | fuel + 1, b :: rest, quoted, esc, comment =>
    match comment, esc with
    | true, e =>
      if b = 47 then
        match indexByte rest 10 with
        | none => ⟨[], quoted, e, false⟩
        | some j => stripLoopF fuel (rest.drop j) quoted e false
      else if b = 42 then
        match indexStarSlash rest with
        | none => ⟨[], quoted, e, true⟩
        | some j => stripLoopF fuel (rest.drop (j + 2)) quoted e false
      else stripLoopF fuel rest quoted e true
    | false, true => stripLoopF fuel rest quoted false false
    | false, false =>
      if b = 92 ∧ quoted = true then stripLoopF fuel rest quoted true false
      else
        let quoted' := if b = 34 ∨ b = 39 then !quoted else quoted
        if b = 47 ∧ quoted' = false then stripLoopF fuel rest quoted' false true
        else
          let r := stripLoopF fuel rest quoted' false false
          ⟨b :: r.out, r.quoted, r.esc, r.comment⟩

/-- Models StripComments (main.go lines 207-268): run the scan over the whole
input; if the final state still has the quoted, esc or comment flag set,
return the raw input unchanged, otherwise return the emitted bytes. -/
def StripComments (raw : List Nat) : List Nat :=
  let r := stripLoopF raw.length raw false false false
  if r.quoted || r.esc || r.comment then raw else r.out

/-- Byte list of an ASCII string, for concrete test inputs. -/
def strBytes (s : String) : List Nat := s.data.map Char.toNat

/-- Models Go path/filepath.Ext walking the path backwards: scan the reversed
character list, stop at a path separator, and return the suffix from the
first dot found (the final dot of the original string).  The accumulator
carries the characters already walked, in original order. -/
def extRev : List Char → List Char → List Char
  | [], _ => []
  | c :: rest, acc =>
    if c = '/' then []
    else if c = '.' then c :: acc
    else extRev rest (c :: acc)

/-- Models Go path/filepath.Ext: the file name extension, i.e. the suffix
beginning at the final dot in the final path element, empty if there is none. -/
def filepathExt (p : String) : String := ⟨extRev p.data.reverse []⟩

/-- The reserved template extension, the constant Ext of main.go line 34
(the source name collides with a Mathlib declaration). -/
def tmplExt : String := ".tmpl"

deriving instance DecidableEq for Except

/-- Models Go strings.IndexByte: index of the first occurrence of c in l. -/
def indexOfChar (l : List Char) (c : Char) : Option Nat :=
  match l with
  | [] => none
  | a :: rest => if a = c then some 0 else (indexOfChar rest c).map (· + 1)

/-- A resolved input/output file pair (main.go lines 36-38). -/
structure pathSpec where
  inp : String
  out : String
deriving Repr, DecidableEq

/-- Models pathSpec.IsGoFile (main.go line 41). -/
def IsGoFile (p : pathSpec) : Bool := filepathExt p.out = ".go"

/-- Models parsePath (main.go lines 43-53); errExit becomes an error result.
With no equals sign the argument must carry the .tmpl extension and the
output is the argument with that suffix cut off; otherwise the argument is
split at the first equals sign. -/
def parsePath (path : String) : Except String (String × String) :=
  match indexOfChar path.data '=' with
  | none =>
    if filepathExt path ≠ tmplExt then
      Except.error ("template file " ++ path ++ " must have .tmpl extension")
    else
      Except.ok (path, ⟨path.data.take (path.data.length - tmplExt.length)⟩)
  | some p => Except.ok (⟨path.data.take p⟩, ⟨path.data.drop (p + 1)⟩)

/-- Models Go strings.Split(v, "=") on character lists: the substrings
between consecutive equals signs, in order. -/
def splitEq : List Char → List (List Char)
  | [] => [[]]
  | c :: rest =>
    if c = '=' then [] :: splitEq rest
    else
      match splitEq rest with
      | [] => [[c]]
      | s :: ss => (c :: s) :: ss

/-- Models map assignment l[k] = v on an association list: replace the
binding of k when present, append it otherwise. -/
def setEntry : List (List Char × List Char) → List Char → List Char →
    List (List Char × List Char)
  | [], k, v => [(k, v)]
  | (k', v') :: rest, k, v =>
    if k' = k then (k, v) :: rest else (k', v') :: setEntry rest k v

/-- Models listValue.Set (main.go lines 76-83): split the token at equals
signs; exactly two parts stores name and value, anything else is an error. -/
def listValueSet (l : List (List Char × List Char)) (v : List Char) :
    Except String (List (List Char × List Char)) :=
  match splitEq v with
  | [n, val] => Except.ok (setEntry l n val)
  | _ => Except.error "expected NAME=VALUE"

/-- The external collaborators of the generation pipeline, abstracted so the
control flow of process (main.go lines 154-186) is the object of study.
Parsed templates are represented by the opaque handle type String. -/
structure PipelineOps where
  readAll : String → Except String String
  parse : String → Except String String
  execute : String → Except String String
  format : String → Except String String
  fileMode : String → Except String Nat
  write : String → String → Nat → Except String Unit

/-- Whether an Except value is a success. -/
def exceptOk {ε α : Type} : Except ε α → Bool
  | Except.ok _ => true
  | Except.error _ => false

/-- One iteration of the loop of process (main.go lines 155-185) for a single
path spec.  An error result models errExit (diagnostic plus exit status 1).
On success it returns the write that was issued: output path, final bytes,
permission bits, and whether os.WriteFile succeeded — the Go code discards
that last result. -/
def processOne (ops : PipelineOps) (d : pathSpec) :
    Except String (String × String × Nat × Bool) :=
  match ops.readAll d.inp with
  | Except.error e => Except.error e
  | Except.ok src =>
    match ops.parse src with
    | Except.error e =>
      Except.error ("error processing template " ++ d.inp ++ ": " ++ e)
    | Except.ok t =>
      let pre :=
        if IsGoFile d then
          "// Code generated by " ++ d.inp ++ ". DO NOT EDIT.\n\n"
        else ""
      match ops.execute t with
      | Except.error e =>
        Except.error ("error executing template " ++ d.inp ++ ": " ++ e)
      | Except.ok rendered =>
        match
          (if IsGoFile d then
            match ops.format (pre ++ rendered) with
            | Except.error e =>
              Except.error ("error formatting " ++ d.inp ++ ": " ++ e)
            | Except.ok g => Except.ok g
          else Except.ok (pre ++ rendered)) with
        | Except.error e => Except.error e
        | Except.ok generated =>
          match ops.fileMode d.inp with
          | Except.error e => Except.error e
          | Except.ok mode =>
            Except.ok (d.out, generated, mode,
              exceptOk (ops.write d.out generated mode))

/-- Outcome of a whole run of process: normal return (exit status zero) or
errExit with its diagnostic (exit status 1), in both cases together with the
writes issued before that point. -/
inductive RunResult where
  | ok (writes : List (String × String × Nat × Bool))
  | exit1 (msg : String) (writes : List (String × String × Nat × Bool))
deriving Repr, DecidableEq

/-- Models process (main.go lines 154-186): handle the specs in order,
stopping at the first errExit. -/
def process (ops : PipelineOps) : List pathSpec → RunResult
  | [] => RunResult.ok []
  | d :: rest =>
    match processOne ops d with
    | Except.error msg => RunResult.exit1 msg []
    | Except.ok w =>
      match process ops rest with
      | RunResult.ok ws => RunResult.ok (w :: ws)
      | RunResult.exit1 m ws => RunResult.exit1 m (w :: ws)

/-- The writes issued by the successfully processed specs of a list. -/
def okWrites (ops : PipelineOps) (l : List pathSpec) :
    List (String × String × Nat × Bool) :=
  l.filterMap fun d => (processOne ops d).toOption

/-- Collaborators for which every step succeeds except the final file write,
which fails (for instance because the output directory is not writable). -/
def opsWriteFail : PipelineOps where
  readAll := fun _ => Except.ok "tsrc"
  parse := fun s => Except.ok s
  execute := fun _ => Except.ok "package p\n"
  format := fun s => Except.ok s
  fileMode := fun _ => Except.ok 420
  write := fun _ _ _ => Except.error "permission denied"

/-- Collaborators for which every step succeeds. -/
def opsGood : PipelineOps where
  readAll := fun _ => Except.ok "tsrc"
  parse := fun s => Except.ok s
  execute := fun _ => Except.ok "package p\n"
  format := fun s => Except.ok s
  fileMode := fun _ => Except.ok 420
  write := fun _ _ _ => Except.ok ()

/-- Collaborators that fail at the parse step for one template source. -/
def opsParseFail : PipelineOps where
  readAll := fun p => if p = "b.tmpl" then Except.ok "bad" else Except.ok "good"
  parse := fun s => if s = "bad" then Except.error "boom" else Except.ok s
  execute := fun t => Except.ok t
  format := fun s => Except.ok s
  fileMode := fun _ => Except.ok 420
  write := fun _ _ _ => Except.ok ()

theorem stripLoopF_nil (fuel : Nat) (q e c : Bool) :
    stripLoopF fuel [] q e c = ⟨[], q, e, c⟩ := by
  cases fuel <;> rfl

/-- Every byte the scan emits is an input byte, in input order. -/
theorem stripLoopF_out_sublist (fuel : Nat) :
    ∀ (l : List Nat) (q e c : Bool), List.Sublist (stripLoopF fuel l q e c).out l := by
  induction fuel with
  | zero => intro l q e c; cases l <;> simp [stripLoopF_nil, stripLoopF]
  | succ f ih =>
    intro l q e c
    cases l with
    | nil => simp [stripLoopF_nil]
    | cons b rest =>
      cases c with
      | true =>
        simp only [stripLoopF]
        split
        · split
          · simp
          · exact List.Sublist.cons _ ((ih _ _ _ _).trans (List.drop_sublist _ _))
        · split
          · split
            · simp
            · exact List.Sublist.cons _
                ((ih _ _ _ _).trans (List.drop_sublist _ _))
          · exact List.Sublist.cons _ (ih _ _ _ _)
      | false =>
        cases e with
        | true =>
          simp only [stripLoopF]
          exact List.Sublist.cons _ (ih _ _ _ _)
        | false =>
          simp only [stripLoopF]
          split
          · exact List.Sublist.cons _ (ih _ _ _ _)
          · split
            · split
              · exact List.Sublist.cons _ (ih _ _ _ _)
              · simpa using List.Sublist.cons₂ b (ih rest (!q) false false)
            · split
              · exact List.Sublist.cons _ (ih _ _ _ _)
              · simpa using List.Sublist.cons₂ b (ih rest q false false)

/-- Rescanning the bytes emitted by a successfully completed scan emits them
again unchanged, with the same final quote flag: the output of the scan
contains no comment starter outside quotes, no backslash inside quotes, and
its quote characters toggle the flag exactly as they did on the first pass. -/
theorem stripLoopF_rescan (fuel : Nat) :
    ∀ (l : List Nat) (q e c : Bool) (out : List Nat) (qf : Bool),
      l.length ≤ fuel →
      stripLoopF fuel l q e c = ⟨out, qf, false, false⟩ →
      ∀ fuel', out.length ≤ fuel' →
        stripLoopF fuel' out q false false = ⟨out, qf, false, false⟩ := by
  induction fuel with
  | zero =>
    intro l q e c out qf hl h fuel' hf
    cases l with
    | nil =>
      rw [stripLoopF_nil] at h
      injection h with h1 h2 h3 h4
      subst h1; subst h2
      exact stripLoopF_nil _ _ _ _
    | cons b rest => simp at hl
  | succ f ih =>
    intro l q e c out qf hl h fuel' hf
    cases l with
    | nil =>
      rw [stripLoopF_nil] at h
      injection h with h1 h2 h3 h4
      subst h1; subst h2
      exact stripLoopF_nil _ _ _ _
    | cons b rest =>
      simp only [List.length_cons, Nat.add_le_add_iff_right] at hl
      cases c with
      | true =>
        simp only [stripLoopF] at h
        split at h
        · split at h
          · injection h with h1 h2 h3 h4
            subst h1; subst h2; subst h3
            exact stripLoopF_nil _ _ _ _
          · exact ih (rest.drop _) q e false out qf
              (by simp only [List.length_drop]; omega) h fuel' hf
        · split at h
          · split at h
            · injection h with h1 h2 h3 h4
              exact absurd h4 (by decide)
            · exact ih (rest.drop _) q e false out qf
                (by simp only [List.length_drop]; omega) h fuel' hf
          · exact ih rest q e true out qf (by omega) h fuel' hf
      | false =>
        cases e with
        | true =>
          simp only [stripLoopF] at h
          exact ih rest q false false out qf (by omega) h fuel' hf
        | false =>
          simp only [stripLoopF] at h
          split at h
          · -- backslash inside quotes: nothing emitted, escape set
            exact ih rest q true false out qf (by omega) h fuel' hf
          · rename_i hbs
            generalize hq2 : (if b = 34 ∨ b = 39 then !q else q) = q2 at h
            split at h
            · -- comment starter: b is a slash, so no quote toggle happened
              rename_i hsl
              have hq2q : q = q2 := by
                rw [← hq2, if_neg]
                intro hor
                rcases hor with h34 | h39 <;> omega
              subst hq2q
              exact ih rest q false true out qf (by omega) h fuel' hf
            · rename_i hsl
              rcases hr : stripLoopF f rest q2 false false with ⟨o2, qq2, ee2, cc2⟩
              rw [hr] at h
              injection h with h1 h2 h3 h4
              subst h1; subst h2; subst h3; subst h4
              have ihres := ih rest q2 false false o2 qq2 (by omega) hr
              cases fuel' with
              | zero => simp at hf
              | succ f2 =>
                simp only [List.length_cons, Nat.add_le_add_iff_right] at hf
                simp only [stripLoopF]
                rw [if_neg hbs, hq2, if_neg hsl, ihres f2 hf]

/-- Claim C1 as stated is false: the bytes of a quoted string are not all
copied verbatim.  On the input consisting of the six bytes of a double-quoted
string holding an escaped quote, StripComments drops both the backslash and
the escaped quote from its output, so the input is not preserved. -/
theorem stripComments_c1_counterexample :
    StripComments (strBytes "\"a\\\"b\"") = strBytes "\"ab\"" ∧
    StripComments (strBytes "\"a\\\"b\"") ≠ strBytes "\"a\\\"b\"" := by
  constructor
  · decide
  · decide

/-- C1 amended: inside a quoted string a slash byte is copied verbatim (so a
literal double slash inside quotes is preserved unchanged), while a backslash
sets the escape flag and is dropped from the output, and the following byte
is dropped as well without toggling the quote flag, so an escaped quote is
not treated as a quote boundary. -/
theorem stripComments_quoted_amended :
    (∀ rest : List Nat,
      stripLoopF (rest.length + 1) (47 :: rest) true false false =
        ⟨47 :: (stripLoopF rest.length rest true false false).out,
         (stripLoopF rest.length rest true false false).quoted,
         (stripLoopF rest.length rest true false false).esc,
         (stripLoopF rest.length rest true false false).comment⟩) ∧
    (∀ rest : List Nat,
      stripLoopF (rest.length + 1) (92 :: rest) true false false =
        stripLoopF rest.length rest true true false) ∧
    (∀ (b : Nat) (rest : List Nat),
      stripLoopF (rest.length + 1) (b :: rest) true true false =
        stripLoopF rest.length rest true false false) ∧
    StripComments (strBytes "\"http://example.com\"") =
      strBytes "\"http://example.com\"" ∧
    StripComments (strBytes "\"a\\\"b\"") = strBytes "\"ab\"" := by
  refine ⟨fun rest => rfl, fun rest => rfl, fun b rest => rfl, ?_, ?_⟩
  · decide
  · decide

/-- Claim C2 as stated is false for line comments that reach end of input
without a newline: the scan clears the comment flag as soon as it sees the
second slash, so the comment is stripped normally and the original bytes are
not returned. -/
theorem stripComments_c2_counterexample :
    StripComments (strBytes "a//b") = strBytes "a" ∧
    StripComments (strBytes "a//b") ≠ strBytes "a//b" := by
  constructor
  · decide
  · decide

/-- C2 amended: whenever the scan ends with the quoted flag, the escape flag
or the comment flag still set, StripComments returns the raw input bytes
unchanged; an unterminated block comment leaves the comment flag set and so
returns the input unchanged, but a line comment with no following newline is
stripped normally. -/
theorem stripComments_fallback_amended :
    (∀ raw : List Nat,
      ((stripLoopF raw.length raw false false false).quoted = true ∨
       (stripLoopF raw.length raw false false false).esc = true ∨
       (stripLoopF raw.length raw false false false).comment = true) →
      StripComments raw = raw) ∧
    StripComments (strBytes "\x7b\"a\": 1, /* oops") =
      strBytes "\x7b\"a\": 1, /* oops" ∧
    StripComments (strBytes "a//b\nc") = strBytes "a\nc" ∧
    StripComments (strBytes "a//b") = strBytes "a" := by
  refine ⟨?_, by decide, by decide, by decide⟩
  intro raw h
  unfold StripComments
  rw [if_pos]
  rcases h with h | h | h <;> simp [h]

/-- Witness for the amended C2 theorem: an input ending inside a quoted
string is returned unchanged. -/
theorem stripComments_fallback_witness :
    StripComments (strBytes "\"ab") = strBytes "\"ab" :=
  stripComments_fallback_amended.1 (strBytes "\"ab") (Or.inl (by decide))

/-- C6: StripComments is idempotent.  If the scan fell back to the raw input
the second application acts on the same bytes; if it succeeded, rescanning
its output emits the same bytes again with all flags clear. -/
theorem stripComments_idempotent (x : List Nat) :
    StripComments (StripComments x) = StripComments x := by
  rcases hr : stripLoopF x.length x false false false with ⟨out, qf, ef, cf⟩
  have hx : StripComments x = if (qf || ef || cf) = true then x else out := by
    unfold StripComments
    rw [hr]
  by_cases hflag : (qf || ef || cf) = true
  · rw [hx, if_pos hflag, hx, if_pos hflag]
  · simp only [Bool.or_eq_true, not_or, Bool.not_eq_true] at hflag
    obtain ⟨⟨hqf, hef⟩, hcf⟩ := hflag
    subst hqf; subst hef; subst hcf
    rw [hx, if_neg (by simp)]
    unfold StripComments
    rw [stripLoopF_rescan x.length x false false false out false le_rfl hr
      out.length le_rfl]
    simp

/-- C7: for inputs whose quotes and comments are balanced, i.e. whose scan
ends with all three flags clear, the output of StripComments is a subsequence
of the input: every output byte is an input byte, in input order, and no new
byte is introduced. -/
theorem stripComments_output_sublist (raw : List Nat)
    (hq : (stripLoopF raw.length raw false false false).quoted = false)
    (he : (stripLoopF raw.length raw false false false).esc = false)
    (hc : (stripLoopF raw.length raw false false false).comment = false) :
    List.Sublist (StripComments raw) raw := by
  simp only [StripComments]
  split
  · exact List.Sublist.refl raw
  · exact stripLoopF_out_sublist raw.length raw false false false

/-- Witness for C7 at a concrete balanced input. -/
theorem stripComments_output_sublist_witness :
    List.Sublist (StripComments (strBytes "a/*x*/b\"c\"")) (strBytes "a/*x*/b\"c\"") :=
  stripComments_output_sublist (strBytes "a/*x*/b\"c\"")
    (by decide) (by decide) (by decide)

/-- C10: after a slash outside quotes the scanner is in comment mode; a byte
that is neither slash nor star is dropped and the mode persists; a slash is
then treated as the start of a line comment (the scan jumps to the next
newline, or clears the flag at end of input) and a star as the start of a
block comment (the scan jumps past the next star-slash pair, or leaves the
flag set at end of input); an input ending in comment mode is returned
unchanged, so the three-byte input a/b comes back whole. -/
theorem stripComments_comment_limbo :
    (∀ (b : Nat) (rest : List Nat) (q e : Bool), b ≠ 47 → b ≠ 42 →
      stripLoopF (rest.length + 1) (b :: rest) q e true =
        stripLoopF rest.length rest q e true) ∧
    (∀ (rest : List Nat) (q e : Bool),
      stripLoopF (rest.length + 1) (47 :: rest) q e true =
        match indexByte rest 10 with
        | none => ⟨[], q, e, false⟩
        | some j => stripLoopF rest.length (rest.drop j) q e false) ∧
    (∀ (rest : List Nat) (q e : Bool),
      stripLoopF (rest.length + 1) (42 :: rest) q e true =
        match indexStarSlash rest with
        | none => ⟨[], q, e, true⟩
        | some j => stripLoopF rest.length (rest.drop (j + 2)) q e false) ∧
    (∀ raw : List Nat,
      (stripLoopF raw.length raw false false false).comment = true →
      StripComments raw = raw) ∧
    StripComments (strBytes "a/b") = strBytes "a/b" := by
  refine ⟨?_, fun rest q e => rfl, fun rest q e => rfl, ?_, by decide⟩
  · intro b rest q e h47 h42
    simp only [stripLoopF]
    rw [if_neg h47, if_neg h42]
  · intro raw h
    unfold StripComments
    rw [if_pos (by simp [h])]

/-- Witness for C10: a dropped limbo byte on a concrete input, and a concrete
input ending in comment mode returned unchanged. -/
theorem stripComments_comment_limbo_witness :
    stripLoopF 1 [98] false false true = stripLoopF 0 [] false false true ∧
    StripComments (strBytes "a/") = strBytes "a/" :=
  ⟨stripComments_comment_limbo.1 98 [] false false (by decide) (by decide),
   stripComments_comment_limbo.2.2.2.1 (strBytes "a/") (by decide)⟩

theorem splitEq_ne_nil (l : List Char) : splitEq l ≠ [] := by
  cases l with
  | nil => simp [splitEq]
  | cons c rest =>
    simp only [splitEq]
    split
    · simp
    · split <;> simp

/-- The split of a token has one more part than the token has equals signs. -/
theorem splitEq_length (l : List Char) :
    (splitEq l).length = l.count '=' + 1 := by
  induction l with
  | nil => rfl
  | cons c rest ih =>
    simp only [splitEq]
    split
    · rename_i hc
      subst hc
      simp [List.count_cons, ih]
    · rename_i hc
      rcases hs : splitEq rest with _ | ⟨s, ss⟩
      · exact absurd hs (splitEq_ne_nil rest)
      · rw [hs] at ih
        simp only [List.length_cons] at ih
        simp [List.count_cons, hc, ih]

/-- Claim C4 as stated is false: a token of shape NAME=VALUE whose VALUE
itself contains an equals sign does contain an equals separator, yet Set
rejects it, because the code splits at every equals sign and demands exactly
two parts. -/
theorem listValueSet_c4_counterexample :
    ('=' ∈ "A=B=C".data) ∧
    exceptOk (listValueSet [] "A=B=C".data) = false := by
  constructor
  · decide
  · decide

/-- C4 amended: Set succeeds exactly on tokens containing exactly one equals
sign, storing the name/value pair; a token with no equals sign fails, and so
does a token with two or more. -/
theorem listValueSet_amended :
    (∀ (l : List (List Char × List Char)) (v : List Char),
      exceptOk (listValueSet l v) = true ↔ v.count '=' = 1) ∧
    listValueSet [] "A=B".data = Except.ok [("A".data, "B".data)] ∧
    exceptOk (listValueSet [] "A".data) = false ∧
    exceptOk (listValueSet [] "A=B=C".data) = false := by
  refine ⟨?_, by decide, by decide, by decide⟩
  intro l v
  have hlen := splitEq_length v
  unfold listValueSet
  rcases hs : splitEq v with _ | ⟨a, _ | ⟨b, _ | ⟨c, t⟩⟩⟩ <;>
    rw [hs] at hlen <;> simp only [List.length_cons, List.length_nil] at hlen <;>
    simp [exceptOk] <;> omega

/-- Witness for the amended C4 theorem at a concrete one-equals token. -/
theorem listValueSet_amended_witness :
    exceptOk (listValueSet [] "A=B".data) = true :=
  (listValueSet_amended.1 [] "A=B".data).mpr (by decide)

theorem indexOfChar_eq_none (l : List Char) (c : Char) (h : c ∉ l) :
    indexOfChar l c = none := by
  induction l with
  | nil => rfl
  | cons a t ih =>
    simp only [indexOfChar]
    rw [if_neg, ih]
    · simp
    · intro hm
      exact h (List.mem_cons_of_mem _ hm)
    · intro hac
      exact h (hac ▸ List.mem_cons_self a t)

theorem indexOfChar_append (pre post : List Char) (h : '=' ∉ pre) :
    indexOfChar (pre ++ '=' :: post) '=' = some pre.length := by
  induction pre with
  | nil => simp [indexOfChar]
  | cons a t ih =>
    have ha : ¬a = '=' := fun hac => h (hac ▸ List.mem_cons_self a t)
    have ht : '=' ∉ t := fun hm => h (List.mem_cons_of_mem _ hm)
    simp only [List.cons_append, indexOfChar, List.append_eq]
    rw [if_neg ha, ih ht]
    simp

theorem takeLenAppend {α : Type} (pre l : List α) :
    (pre ++ l).take pre.length = pre := by
  induction pre with
  | nil => simp
  | cons a t ih => simp [ih]

theorem dropLenAppend {α : Type} (pre l : List α) :
    (pre ++ l).drop pre.length = l := by
  induction pre with
  | nil => simp
  | cons a t ih => simp [ih]

/-- If the backwards extension walk yields the dot-t-m-p-l extension, the
walked list splits at its first dot, with the walked prefix spelling the
extension backwards. -/
theorem extRev_tmpl (r : List Char) :
    ∀ acc : List Char, extRev r acc = ".tmpl".data →
    ∃ w rest, r = w ++ '.' :: rest ∧ w.reverse ++ acc = "tmpl".data := by
  induction r with
  | nil => intro acc h; exact absurd h (by simp [extRev])
  | cons c rest ih =>
    intro acc h
    simp only [extRev] at h
    by_cases hsep : c = '/'
    · rw [if_pos hsep] at h
      exact absurd h (by simp)
    · rw [if_neg hsep] at h
      by_cases hdot : c = '.'
      · rw [if_pos hdot] at h
        subst hdot
        refine ⟨[], rest, rfl, ?_⟩
        simpa using congrArg List.tail h
      · rw [if_neg hdot] at h
        obtain ⟨w, r2, hw, hacc⟩ := ih (c :: acc) h
        exact ⟨c :: w, r2, by simp [hw], by simpa using hacc⟩

/-- The Ext check of parsePath agrees with the plain suffix test: the
extension is .tmpl exactly when the path ends in the five bytes .tmpl. -/
theorem filepathExt_tmpl_iff (p : String) :
    filepathExt p = ".tmpl" ↔ List.IsSuffix ".tmpl".data p.data := by
  constructor
  · intro h
    have h2 : extRev p.data.reverse [] = ".tmpl".data := by
      have := congrArg String.data h
      simpa [filepathExt] using this
    obtain ⟨w, rest, hw, hacc⟩ := extRev_tmpl p.data.reverse [] h2
    simp only [List.append_nil] at hacc
    have hwv : w = ['l', 'p', 'm', 't'] := by
      have h3 := congrArg List.reverse hacc
      simpa using h3
    refine ⟨rest.reverse, ?_⟩
    have hpd := congrArg List.reverse hw
    simp only [List.reverse_reverse] at hpd
    have hext : ".tmpl".data = ['.', 't', 'm', 'p', 'l'] := rfl
    rw [hpd, hwv, hext]
    simp
  · rintro ⟨t, ht⟩
    have hrev : p.data.reverse = 'l' :: 'p' :: 'm' :: 't' :: '.' :: t.reverse := by
      rw [← ht]
      simp
    unfold filepathExt
    rw [hrev]
    rfl

/-- C5: a path argument with no equals sign must end in the five bytes .tmpl,
otherwise resolution fails with a usage error; when it does, the output path
is the argument with that suffix removed; an argument with an equals sign is
split at its first equals sign into input and output, with no extension
check; and the three concrete examples of the spec behave accordingly. -/
theorem parsePath_resolution :
    (∀ path : String, '=' ∉ path.data →
      ¬ List.IsSuffix ".tmpl".data path.data →
      exceptOk (parsePath path) = false) ∧
    (∀ path : String, '=' ∉ path.data →
      List.IsSuffix ".tmpl".data path.data →
      parsePath path =
        Except.ok (path, ⟨path.data.take (path.data.length - 5)⟩)) ∧
    (∀ pre post : List Char, '=' ∉ pre →
      parsePath ⟨pre ++ '=' :: post⟩ = Except.ok (⟨pre⟩, ⟨post⟩)) ∧
    parsePath "foo.tmpl" = Except.ok ("foo.tmpl", "foo") ∧
    parsePath "foo.tmpl=bar.go" = Except.ok ("foo.tmpl", "bar.go") ∧
    exceptOk (parsePath "foo.txt") = false := by
  refine ⟨?_, ?_, ?_, by decide, by decide, by decide⟩
  · intro path hnoeq hnosuf
    unfold parsePath
    rw [indexOfChar_eq_none path.data '=' hnoeq]
    rw [if_pos]
    · rfl
    · intro hext
      exact hnosuf ((filepathExt_tmpl_iff path).mp hext)
  · intro path hnoeq hsuf
    unfold parsePath
    rw [indexOfChar_eq_none path.data '=' hnoeq]
    rw [if_neg]
    · rfl
    · intro hne
      exact hne ((filepathExt_tmpl_iff path).mpr hsuf)
  · intro pre post hnoeq
    unfold parsePath
    have hd : (String.mk (pre ++ '=' :: post)).data = pre ++ '=' :: post := rfl
    rw [hd, indexOfChar_append pre post hnoeq]
    have ht : (pre ++ '=' :: post).take pre.length = pre := takeLenAppend pre _
    have hdr : (pre ++ '=' :: post).drop (pre.length + 1) = post := by
      have h2 : pre ++ '=' :: post = (pre ++ ['=']) ++ post := by simp
      have h3 : pre.length + 1 = (pre ++ ['=']).length := by simp
      rw [h2, h3, dropLenAppend]
    simp [ht, hdr]

/-- Witness for C5 at concrete inputs covering all three general clauses. -/
theorem parsePath_resolution_witness :
    parsePath "x.tmpl" = Except.ok ("x.tmpl", "x") ∧
    parsePath ⟨"a".data ++ '=' :: "b.go".data⟩ =
      Except.ok (⟨"a".data⟩, ⟨"b.go".data⟩) ∧
    exceptOk (parsePath "x.txt") = false := by
  refine ⟨?_, ?_, ?_⟩
  · have h := parsePath_resolution.2.1 "x.tmpl" (by decide) ⟨"x".data, by decide⟩
    simpa using h
  · exact parsePath_resolution.2.2.1 "a".data "b.go".data (by decide)
  · refine parsePath_resolution.1 "x.txt" (by decide) ?_
    rintro ⟨t, ht⟩
    have hlen : t.length + 5 = 5 := by
      have h2 := congrArg List.length ht
      simpa using h2
    have htn : t = [] := List.eq_nil_of_length_eq_zero (by omega)
    rw [htn] at ht
    exact absurd ht (by decide)

/-- Claim C3 is contradicted by the code at the write step: main.go line 184
discards the result of os.WriteFile, so when writing the output file fails
the run still completes normally (exit status zero) and no diagnostic is
produced; the failed write is visible in the recorded write flag. -/
theorem process_ignores_write_failure :
    process opsWriteFail [⟨"a.tmpl", "a.go"⟩] =
      RunResult.ok [("a.go",
        "// Code generated by a.tmpl. DO NOT EDIT.\n\npackage p\n",
        420, false)] := by
  decide

/-- C8: whenever a spec is processed successfully, the write goes to the
output path of the spec, and the rendered content is exactly the output of
template execution on the parsed template read from the input path; for a
source (.go) output the buffer handed to the selected formatter is exactly
the generated-file marker comment naming the template path, a blank line,
then that rendered content, and the written bytes are the formatter result;
for a non-source output the written bytes are that rendered content itself,
with no marker prepended and no formatter applied. -/
theorem processOne_marker (ops : PipelineOps) (d : pathSpec)
    (p g : String) (m : Nat) (wb : Bool)
    (h : processOne ops d = Except.ok (p, g, m, wb)) :
    p = d.out ∧
    ∃ src t rendered : String,
      ops.readAll d.inp = Except.ok src ∧
      ops.parse src = Except.ok t ∧
      ops.execute t = Except.ok rendered ∧
      (IsGoFile d = true →
        ops.format ("// Code generated by " ++ d.inp ++ ". DO NOT EDIT.\n\n"
          ++ rendered) = Except.ok g) ∧
      (IsGoFile d = false → g = rendered) := by
  cases hgo : IsGoFile d
  case false =>
    simp only [processOne, hgo, Bool.false_eq_true, if_false] at h
    split at h
    · exact Except.noConfusion h
    rename_i src hsrc
    split at h
    · exact Except.noConfusion h
    rename_i t hparse
    split at h
    · exact Except.noConfusion h
    rename_i rendered hexec
    split at h
    · exact Except.noConfusion h
    simp only [Except.ok.injEq, Prod.mk.injEq] at h
    obtain ⟨hp, hg, hm, hw⟩ := h
    refine ⟨hp.symm, src, t, rendered, hsrc, hparse, hexec,
      fun hgt => Bool.noConfusion hgt, fun hgf => ?_⟩
    -- hg : "" ++ rendered = g, and the empty prefix vanishes
    rw [← hg]
    exact (show "" ++ rendered = rendered from rfl).symm
  case true =>
    simp only [processOne, hgo, if_true] at h
    split at h
    · exact Except.noConfusion h
    rename_i src hsrc
    split at h
    · exact Except.noConfusion h
    rename_i t hparse
    split at h
    · exact Except.noConfusion h
    rename_i rendered hexec
    split at h
    · exact Except.noConfusion h
    rename_i generated hgen
    split at h
    · exact Except.noConfusion h
    simp only [Except.ok.injEq, Prod.mk.injEq] at h
    obtain ⟨hp, hg, hm, hw⟩ := h
    refine ⟨hp.symm, src, t, rendered, hsrc, hparse, hexec, fun hgt => ?_,
      fun hgf => Bool.noConfusion hgf⟩
    -- hgen relates the formatter call on the marker-prefixed buffer to g
    split at hgen
    · exact Except.noConfusion hgen
    rename_i g0 hfmt
    injection hgen with hgg
    rw [← hg, ← hgg]
    exact hfmt

/-- Witness for C8 at a concrete source-file spec. -/
theorem processOne_marker_witness :
    "a.go" = "a.go" ∧
    ∃ src t rendered : String,
      opsGood.readAll "a.tmpl" = Except.ok src ∧
      opsGood.parse src = Except.ok t ∧
      opsGood.execute t = Except.ok rendered ∧
      (IsGoFile ⟨"a.tmpl", "a.go"⟩ = true →
        opsGood.format ("// Code generated by " ++ "a.tmpl"
          ++ ". DO NOT EDIT.\n\n" ++ rendered) = Except.ok
            "// Code generated by a.tmpl. DO NOT EDIT.\n\npackage p\n") ∧
      (IsGoFile ⟨"a.tmpl", "a.go"⟩ = false →
        "// Code generated by a.tmpl. DO NOT EDIT.\n\npackage p\n" = rendered) :=
  processOne_marker opsGood ⟨"a.tmpl", "a.go"⟩ "a.go"
    "// Code generated by a.tmpl. DO NOT EDIT.\n\npackage p\n" 420 true
    (by decide)

/-- C9: if handling one spec fails at any stage (read, parse, execute,
format, stat), the whole run stops there with the errExit diagnostic (a
non-zero exit): the writes performed are exactly those of the specs before
the failing one — nothing is written for the failing spec and no later spec
is processed. -/
theorem process_failfast (ops : PipelineOps) (pre : List pathSpec) :
    ∀ (s : pathSpec) (post : List pathSpec) (msg : String),
      (∀ d ∈ pre, exceptOk (processOne ops d) = true) →
      processOne ops s = Except.error msg →
      process ops (pre ++ s :: post) = RunResult.exit1 msg (okWrites ops pre) := by
  induction pre with
  | nil =>
    intro s post msg hpre hs
    simp [process, hs, okWrites]
  | cons d t ih =>
    intro s post msg hpre hs
    have hd := hpre d (List.mem_cons_self d t)
    rcases hw : processOne ops d with e | w
    · rw [hw] at hd
      exact absurd hd (by simp [exceptOk])
    · have hrec := ih s post msg (fun x hx => hpre x (List.mem_cons_of_mem d hx)) hs
      simp [process, hw, hrec, okWrites, List.filterMap_cons, Except.toOption]

/-- Witness for C9: a three-spec run whose middle spec fails to parse stops
with the diagnostic of the middle spec and only the first write performed. -/
theorem process_failfast_witness :
    process opsParseFail
        [⟨"a.tmpl", "a.txt"⟩, ⟨"b.tmpl", "b.txt"⟩, ⟨"c.tmpl", "c.txt"⟩] =
      RunResult.exit1 ("error processing template " ++ "b.tmpl" ++ ": " ++ "boom")
        (okWrites opsParseFail [⟨"a.tmpl", "a.txt"⟩]) := by
  have h := process_failfast opsParseFail [⟨"a.tmpl", "a.txt"⟩]
      ⟨"b.tmpl", "b.txt"⟩ [⟨"c.tmpl", "c.txt"⟩]
      ("error processing template " ++ "b.tmpl" ++ ": " ++ "boom")
      (by decide) (by decide)
  simpa using h
